import Mathlib

/-!
Shallow embedding of the client-side cache layer (`cache.ts`):
`withTimeout`, `getCached`, `invalidateCache`, `invalidateCaches`, `preCache`.

Modelling choices:
* The persistent key-value store is a function `String → Option (CacheEntry T)`.
* Each asynchronous operation of the JS code is represented by its settlement
  behaviour: `AsyncOp α = Option (Nat × Except Unit α)` gives the duration (ms)
  after which the underlying promise settles and whether it resolves (`ok`) or
  rejects (`error`); `none` is a promise that never settles.
* `withTimeout` races such an operation against a timer of `ms` milliseconds,
  exactly as the source's timer/clearTimeout race: the op wins iff it settles
  strictly before the timer fires; otherwise the timer's rejection wins.
* JS truthiness (`if (freshData)`, `if (cached && cached.data)`) is modelled by
  an explicit `truthy : T → Bool` parameter; `jsIntTruthy` instantiates it for
  numbers (0 is falsy).
* `Date.now()` is read twice in `getCached` (validity check, save payload), so
  the environment carries both readings (`now`, `nowSave`).
* The fire-and-forget `save(...).catch(() => {})` is modelled by a flag
  `saveOk`: the store is updated iff the write succeeds; a failure is swallowed.
-/

set_option autoImplicit false

/-- A stored cache entry: `{ data, timestamp, version }`. -/
structure CacheEntry (T : Type) where
  data : T
  timestamp : Int
  version : String
  deriving DecidableEq, Repr

/-- The module-level cache version constant (`CACHE_VERSION = "1.0.0"`). -/
def CACHE_VERSION : String := "1.0.0"

/-- Cache configuration; every field is optional, mirroring the TS interface
(`ttl`, `prefix`, `timeout`). The source field `prefix` is called `pfx` here
because `prefix` is reserved in Lean. -/
structure CacheConfig where
  ttl : Option Int
  pfx : Option String
  timeout : Option Nat
  deriving DecidableEq, Repr

/-- Resolved ttl: `ttl = 5 * 60 * 1000` default from the destructuring. -/
def CacheConfig.ttlD (c : CacheConfig) : Int := c.ttl.getD (5 * 60 * 1000)

/-- Resolved key namespace: `prefix = "cache"` default from the destructuring. -/
def CacheConfig.pfxD (c : CacheConfig) : String := c.pfx.getD "cache"

/-- Resolved fetch bound: `timeout = 10000` default from the destructuring. -/
def CacheConfig.timeoutD (c : CacheConfig) : Nat := c.timeout.getD 10000

/-- The composite storage key `` `${prefix}:${key}` ``. -/
def cacheKeyFor (pfx key : String) : String := pfx ++ ":" ++ key

/-- The persistent key-value store, one `CacheEntry` per key. -/
def Store (T : Type) : Type := String → Option (CacheEntry T)

/-- The store after a successful `save(k, e)`. -/
def storeSet {T : Type} (s : Store T) (k : String) (e : CacheEntry T) : Store T :=
  fun k' => if k' = k then some e else s k'

/-- The store after a successful `remove(k)`. -/
def storeErase {T : Type} (s : Store T) (k : String) : Store T :=
  fun k' => if k' = k then none else s k'

/-- The empty store. -/
def emptyStore {T : Type} : Store T := fun _ => none

/-- Settlement behaviour of an asynchronous operation: `some (t, r)` settles
after `t` ms with outcome `r` (resolve or reject); `none` never settles. -/
def AsyncOp (α : Type) : Type := Option (Nat × Except Unit α)

/-- Model of `withTimeout(promise, ms)`: a timer rejecting after `ms` races the
operation; whichever settles first wins and the timer is cleared. The result
is the settlement time of the race together with its outcome. -/
def withTimeout {α : Type} (op : AsyncOp α) (ms : Nat) : Nat × Except Unit α :=
  match op with
  | none => (ms, Except.error ())
  | some (t, r) => if t < ms then (t, r) else (ms, Except.error ())

/-- A store read (`load(cacheKey)`) built from a settlement behaviour `b` and
the value `v` the store holds: if the read resolves it yields `v`. -/
def loadOp {T : Type} (b : AsyncOp Unit) (v : Option (CacheEntry T)) :
    AsyncOp (Option (CacheEntry T)) :=
  b.map (fun p => (p.1, p.2.map (fun _ => v)))

/-- A bounded store read wrapped in the source's inline `try { ... } catch {}`:
`withTimeout(load(cacheKey), ms)` whose failure (read error or timeout) is
swallowed and treated as "no cached entry". Returns elapsed time and the
entry (or `none`). -/
def boundedRead {T : Type} (b : AsyncOp Unit) (v : Option (CacheEntry T)) (ms : Nat) :
    Nat × Option (CacheEntry T) :=
  let r := withTimeout (loadOp b v) ms
  (r.1,
   match r.2 with
   | Except.ok c => c
   | Except.error _ => none)

/-- The environment of one `getCached` call: settlement behaviour of the two
bounded store reads and of `fetchFn()`, the outcome of the fire-and-forget
save, and the two `Date.now()` readings. -/
structure Env (T : Type) where
  load1 : AsyncOp Unit
  fetch : AsyncOp T
  saveOk : Bool
  load2 : AsyncOp Unit
  now : Int
  nowSave : Int

/-- The validity check of `getCached`:
`cached && cached.version === CACHE_VERSION && Date.now() - cached.timestamp < ttl`. -/
def isValidEntry {T : Type} (cached : Option (CacheEntry T)) (now ttl : Int) : Bool :=
  match cached with
  | none => false
  | some c => c.version == CACHE_VERSION && decide (now - c.timestamp < ttl)

/-- Result of one `getCached` call: the resolved value (`none` = null), the
store afterwards, whether `fetchFn` was invoked, and the elapsed time in ms
spent in awaited suspension points. -/
structure GetResult (T : Type) where
  result : Option T
  store : Store T
  fetched : Bool
  time : Nat

/-- Model of `getCached(key, fetchFn, config)`.
1. bounded (2000 ms) store read, failure treated as no entry;
2. if the entry is valid, return its data without fetching;
3. otherwise fetch bounded by `config.timeout`; on success save
   `{data, timestamp: now, version: CACHE_VERSION}` fire-and-forget when the
   data is truthy, and return the fresh data;
4. on fetch failure, bounded (1000 ms) fallback read; return the stale data
   when present and truthy, else null. Never throws. -/
def getCached {T : Type} (truthy : T → Bool) (key : String) (config : CacheConfig)
    (store : Store T) (env : Env T) : GetResult T :=
  let ck := cacheKeyFor config.pfxD key
  let l1 := boundedRead env.load1 (store ck) 2000
  let cached := l1.2
  if isValidEntry cached env.now config.ttlD then
    ⟨cached.map (fun c => c.data), store, false, l1.1⟩
  else
    let f := withTimeout env.fetch config.timeoutD
    match f.2 with
    | Except.ok freshData =>
      let store' :=
        if truthy freshData && env.saveOk then
          storeSet store ck ⟨freshData, env.nowSave, CACHE_VERSION⟩
        else store
      ⟨some freshData, store', true, l1.1 + f.1⟩
    | Except.error _ =>
      let l2 := boundedRead env.load2 (store ck) 1000
      match l2.2 with
      | some c =>
        if truthy c.data then ⟨some c.data, store, true, l1.1 + f.1 + l2.1⟩
        else ⟨none, store, true, l1.1 + f.1 + l2.1⟩
      | none => ⟨none, store, true, l1.1 + f.1 + l2.1⟩

/-- Model of `invalidateCache(key, prefix)`: `await remove(cacheKey)` with no try/catch.
`removeOk` is the outcome of the underlying `remove`; the first component is
whether the returned promise resolves (`true`) or rejects (`false`). A failed
remove leaves the store unchanged. -/
def invalidateCache {T : Type} (key pfx : String) (store : Store T)
    (removeOk : Bool) : Bool × Store T :=
  if removeOk then (true, storeErase store (cacheKeyFor pfx key))
  else (false, store)

/-- Model of `invalidateCaches(keys, prefix)`: `Promise.all(keys.map(invalidateCache))`.
All deletions are started concurrently and each runs to completion
independently, so the final store reflects every successful removal; the
combined promise resolves iff every single removal resolved. -/
def invalidateCaches {T : Type} (keys : List String) (pfx : String)
    (store : Store T) (removeOk : String → Bool) : Bool × Store T :=
  (keys.all (fun k => (invalidateCache k pfx store (removeOk k)).1),
   keys.foldl (fun s k => (invalidateCache k pfx s (removeOk k)).2) store)

/-- Model of `preCache(key, fetchFn, config)`, try-block body: `fetchFn()` awaited with
no timeout bound (a rejection propagates to the catch), then, when the data is
truthy, an awaited `save` (whose rejection also propagates to the catch). -/
def preCacheTry {T : Type} (truthy : T → Bool) (key : String) (config : CacheConfig)
    (store : Store T) (fetch : Except Unit T) (saveOk : Bool) (now : Int) :
    Except Unit (Store T) :=
  match fetch with
  | Except.error e => Except.error e
  | Except.ok data =>
    if truthy data then
      if saveOk then
        Except.ok (storeSet store (cacheKeyFor config.pfxD key) ⟨data, now, CACHE_VERSION⟩)
      else Except.error ()
    else Except.ok store

/-- Model of `preCache`: the try/catch wrapper — every failure of the try body is caught
and logged, so the call always resolves; a failed path leaves the store
unchanged. -/
def preCache {T : Type} (truthy : T → Bool) (key : String) (config : CacheConfig)
    (store : Store T) (fetch : Except Unit T) (saveOk : Bool) (now : Int) :
    Except Unit (Store T) :=
  match preCacheTry truthy key config store fetch saveOk now with
  | Except.ok s => Except.ok s
  | Except.error _ => Except.ok store

/-- JS truthiness for (integer) numbers: only 0 is falsy. -/
def jsIntTruthy (n : Int) : Bool := n != 0

/-- All-default configuration (`{}` at a call site). -/
def cfg0 : CacheConfig := ⟨none, none, none⟩

/-- A fresh, current-version entry holding 42, written at time 0. -/
def entryC1 : CacheEntry Int := ⟨42, 0, "1.0.0"⟩

/-- A store holding `entryC1` under `cache:k`. -/
def storeC1 : Store Int := storeSet emptyStore "cache:k" entryC1

/-- Environment for the cache-hit instance: the initial read resolves in 5 ms,
the fetch would resolve with 7, both clocks read 10. -/
def envC1 : Env Int :=
  ⟨some (5, Except.ok ()), some (0, Except.ok 7), true, some (0, Except.ok ()), 10, 10⟩

/-- Environment whose fetch rejects immediately and whose reads resolve. -/
def envC2 : Env Int :=
  ⟨some (5, Except.ok ()), some (0, Except.error ()), true, some (0, Except.ok ()), 10, 10⟩

/-- A stale (wrong-version) entry holding the falsy value 0. -/
def entryC3 : CacheEntry Int := ⟨0, 0, "0.9.9"⟩

/-- A store holding the falsy-data entry `entryC3` under `cache:k`. -/
def storeC3 : Store Int := storeSet emptyStore "cache:k" entryC3

/-- A stale (wrong-version) entry holding the truthy value 9. -/
def entryC3t : CacheEntry Int := ⟨9, 0, "0.9.9"⟩

/-- A store holding the truthy stale entry `entryC3t` under `cache:k`. -/
def storeC3t : Store Int := storeSet emptyStore "cache:k" entryC3t

/-- Environment whose fetch resolves immediately with the falsy value 0. -/
def envC4 : Env Int :=
  ⟨some (5, Except.ok ()), some (0, Except.ok 0), true, some (0, Except.ok ()), 10, 10⟩

/-- Environment whose fetch resolves immediately with the truthy value 7. -/
def envC4t : Env Int :=
  ⟨some (5, Except.ok ()), some (0, Except.ok 7), true, some (0, Except.ok ()), 10, 10⟩

/-- Remove outcomes where deleting `k1` rejects and every other key resolves. -/
def removeOkC6 : String → Bool := fun k => k != "k1"

/-- A store holding current-version entries under both `cache:k1` and
`cache:k2`. -/
def storeC6 : Store Int :=
  storeSet (storeSet emptyStore "cache:k1" entryC1) "cache:k2" entryC1

/-! ## Helper lemmas -/

theorem withTimeout_fst_le {α : Type} (op : AsyncOp α) (ms : Nat) :
    (withTimeout op ms).1 ≤ ms := by
  cases op with
  | none => simp [withTimeout]
  | some p =>
    obtain ⟨t, r⟩ := p
    simp only [withTimeout]
    split
    · omega
    · omega

theorem boundedRead_fst_le {T : Type} (b : AsyncOp Unit) (v : Option (CacheEntry T))
    (ms : Nat) : (boundedRead b v ms).1 ≤ ms := by
  simpa [boundedRead] using withTimeout_fst_le (loadOp (T := T) b v) ms

theorem boundedRead_ok {T : Type} (b : AsyncOp Unit) (v : Option (CacheEntry T))
    (ms t : Nat) (hb : b = some (t, Except.ok ())) (ht : t < ms) :
    boundedRead b v ms = (t, v) := by
  subst hb
  simp [boundedRead, loadOp, withTimeout, ht, Except.map]

theorem boundedRead_none_snd {T : Type} (b : AsyncOp Unit) (ms : Nat) :
    (boundedRead (T := T) b none ms).2 = none := by
  cases b with
  | none => simp [boundedRead, loadOp, withTimeout]
  | some p =>
    obtain ⟨t, r⟩ := p
    by_cases ht : t < ms
    · cases r <;> simp [boundedRead, loadOp, withTimeout, Except.map, ht]
    · cases r <;> simp [boundedRead, loadOp, withTimeout, Except.map, ht]

/-! ## C1: a valid stored entry is returned without invoking the fetch -/

theorem storeSet_self {T : Type} (s : Store T) (k : String) (e : CacheEntry T) :
    storeSet s k e k = some e := by
  simp [storeSet]

theorem getCached_hit_aux {T : Type} (truthy : T → Bool) (key : String)
    (config : CacheConfig) (store : Store T) (env : Env T) (e : CacheEntry T)
    (t1 : Nat) (hload : env.load1 = some (t1, Except.ok ())) (ht1 : t1 < 2000)
    (hstore : store (cacheKeyFor config.pfxD key) = some e)
    (hver : e.version = CACHE_VERSION)
    (hfresh : env.now - e.timestamp < config.ttlD) :
    (getCached truthy key config store env).result = some e.data ∧
    (getCached truthy key config store env).fetched = false ∧
    (getCached truthy key config store env).store = store := by
  have hl1 := boundedRead_ok env.load1 (store (cacheKeyFor config.pfxD key)) 2000 t1
    hload ht1
  rw [hstore] at hl1
  have hvalid : isValidEntry (some e) env.now config.ttlD = true := by
    simp [isValidEntry, hver, hfresh]
  simp [getCached, hstore, hl1, hvalid]

/-- C1: for every key, fetch behaviour and config, if the initial bounded read
resolves (within its 2000 ms bound) and the stored entry under `prefix:key`
has `version = CACHE_VERSION` and `now - timestamp < ttl`, then `getCached`
returns that entry's data, never invokes `fetchFn`, and leaves the store
unchanged. -/
theorem getCached_hit_skips_fetch {T : Type} (truthy : T → Bool) (key : String)
    (config : CacheConfig) (store : Store T) (env : Env T) (e : CacheEntry T)
    (t1 : Nat) (hload : env.load1 = some (t1, Except.ok ())) (ht1 : t1 < 2000)
    (hstore : store (cacheKeyFor config.pfxD key) = some e)
    (hver : e.version = CACHE_VERSION)
    (hfresh : env.now - e.timestamp < config.ttlD) :
    (getCached truthy key config store env).result = some e.data ∧
    (getCached truthy key config store env).fetched = false ∧
    (getCached truthy key config store env).store = store :=
  getCached_hit_aux truthy key config store env e t1 hload ht1 hstore hver hfresh

/-- C1 witness: a concrete instantiation of `getCached_hit_skips_fetch`
(store holding a fresh current-version entry with data 42). -/
theorem getCached_hit_skips_fetch_witness :
    (envC1.load1 = some (5, Except.ok ()) ∧ 5 < 2000 ∧
     storeC1 (cacheKeyFor cfg0.pfxD "k") = some entryC1 ∧
     entryC1.version = CACHE_VERSION ∧ envC1.now - entryC1.timestamp < cfg0.ttlD) ∧
    (getCached jsIntTruthy "k" cfg0 storeC1 envC1).result = some 42 ∧
    (getCached jsIntTruthy "k" cfg0 storeC1 envC1).fetched = false := by
  refine ⟨⟨rfl, by decide, by decide, rfl, by decide⟩, ?_, ?_⟩
  · exact (getCached_hit_skips_fetch jsIntTruthy "k" cfg0 storeC1 envC1 entryC1 5
      rfl (by decide) (by decide) rfl (by decide)).1
  · exact (getCached_hit_skips_fetch jsIntTruthy "k" cfg0 storeC1 envC1 entryC1 5
      rfl (by decide) (by decide) rfl (by decide)).2.1

/-! ## C2: total failure degrades to null -/

/-- C2: for every key, fetch behaviour and config, if the bounded fetch fails
(rejection or timeout) and the store holds no entry for `prefix:key`, then
`getCached` resolves to null (and leaves the store unchanged); no failure is
propagated — `getCached` is a total function into `GetResult`. -/
theorem getCached_total_failure_null {T : Type} (truthy : T → Bool) (key : String)
    (config : CacheConfig) (store : Store T) (env : Env T)
    (hfetch : (withTimeout env.fetch config.timeoutD).2 = Except.error ())
    (hstore : store (cacheKeyFor config.pfxD key) = none) :
    (getCached truthy key config store env).result = none ∧
    (getCached truthy key config store env).store = store := by
  have h1 := boundedRead_none_snd (T := T) env.load1 2000
  have h2 := boundedRead_none_snd (T := T) env.load2 1000
  simp [getCached, hstore, h1, h2, hfetch, isValidEntry]

/-- C2 witness: concrete instance — fetch rejects at once, empty store,
`getCached` returns null. -/
theorem getCached_total_failure_null_witness :
    ((withTimeout envC2.fetch cfg0.timeoutD).2 = Except.error () ∧
     (emptyStore : Store Int) (cacheKeyFor cfg0.pfxD "k") = none) ∧
    (getCached jsIntTruthy "k" cfg0 (emptyStore : Store Int) envC2).result = none := by
  exact ⟨⟨rfl, rfl⟩,
    (getCached_total_failure_null jsIntTruthy "k" cfg0 emptyStore envC2 rfl rfl).1⟩

/-! ## C9: bounded latency -/

/-- C9: for every key, fetch behaviour, store and config, the total time spent
in awaited suspension points of `getCached` is at most
`2000 + config.timeout + 1000` — the initial bounded read, the bounded fetch
and the bounded fallback read — because each suspension point is a
timer/operation race that settles no later than its bound. In particular the
call never hangs. -/
theorem getCached_bounded_latency {T : Type} (truthy : T → Bool) (key : String)
    (config : CacheConfig) (store : Store T) (env : Env T) :
    (getCached truthy key config store env).time ≤ 2000 + config.timeoutD + 1000 := by
  have hA := boundedRead_fst_le env.load1 (store (cacheKeyFor config.pfxD key)) 2000
  have hB := withTimeout_fst_le env.fetch config.timeoutD
  have hC := boundedRead_fst_le env.load2 (store (cacheKeyFor config.pfxD key)) 1000
  simp only [getCached]
  split
  · dsimp only; omega
  · split
    · dsimp only; omega
    · split
      · split
        · dsimp only; omega
        · dsimp only; omega
      · dsimp only; omega

/-! ## C3: stale fallback beats hard failure -/

theorem boundedRead_snd_cases {T : Type} (b : AsyncOp Unit) (v : Option (CacheEntry T))
    (ms : Nat) : (boundedRead b v ms).2 = none ∨ (boundedRead b v ms).2 = v := by
  cases b with
  | none => left; simp [boundedRead, loadOp, withTimeout]
  | some p =>
    obtain ⟨t, r⟩ := p
    by_cases ht : t < ms
    · cases r with
      | ok u => right; simp [boundedRead, loadOp, withTimeout, Except.map, ht]
      | error err => left; simp [boundedRead, loadOp, withTimeout, Except.map, ht]
    · left; simp [boundedRead, loadOp, withTimeout, Except.map, ht]

/-- C3 counterexample: the claim as stated is false. The store holds a stale
wrong-version entry whose data is the falsy value 0, the fetch rejects, the
fallback read resolves — yet `getCached` returns null, not the stored data,
because the fallback requires `cached && cached.data` (truthy data). -/
theorem getCached_stale_fallback_counterexample :
    storeC3 (cacheKeyFor cfg0.pfxD "k") = some entryC3 ∧
    envC2.load2 = some (0, Except.ok ()) ∧
    (withTimeout envC2.fetch cfg0.timeoutD).2 = Except.error () ∧
    (getCached jsIntTruthy "k" cfg0 storeC3 envC2).result = none := by
  exact ⟨by decide, rfl, rfl, by decide⟩

/-- C3 amended: if the bounded fetch fails, the fallback bounded read resolves
within its 1000 ms bound, and the store holds an entry for `prefix:key` whose
data is truthy, then `getCached` returns that entry's data — regardless of the
entry's age and version. -/
theorem getCached_stale_fallback {T : Type} (truthy : T → Bool) (key : String)
    (config : CacheConfig) (store : Store T) (env : Env T) (e : CacheEntry T)
    (t2 : Nat)
    (hfetch : (withTimeout env.fetch config.timeoutD).2 = Except.error ())
    (hload2 : env.load2 = some (t2, Except.ok ())) (ht2 : t2 < 1000)
    (hstore : store (cacheKeyFor config.pfxD key) = some e)
    (htruthy : truthy e.data = true) :
    (getCached truthy key config store env).result = some e.data := by
  have hl2 := boundedRead_ok env.load2 (store (cacheKeyFor config.pfxD key)) 1000 t2
    hload2 ht2
  rw [hstore] at hl2
  simp only [getCached]
  split
  case isTrue hvalid =>
    rcases boundedRead_snd_cases env.load1 (store (cacheKeyFor config.pfxD key)) 2000
      with h1 | h1
    · rw [h1] at hvalid
      simp [isValidEntry] at hvalid
    · rw [h1, hstore] at hvalid ⊢
      simp
  case isFalse hvalid =>
    simp only [hfetch, hstore, hl2]
    simp [htruthy]

/-- C3 amended witness: a stale wrong-version entry with truthy data 9 is
returned when the fetch rejects. -/
theorem getCached_stale_fallback_witness :
    ((withTimeout envC2.fetch cfg0.timeoutD).2 = Except.error () ∧
     envC2.load2 = some (0, Except.ok ()) ∧ 0 < 1000 ∧
     storeC3t (cacheKeyFor cfg0.pfxD "k") = some entryC3t ∧
     jsIntTruthy entryC3t.data = true) ∧
    (getCached jsIntTruthy "k" cfg0 storeC3t envC2).result = some 9 := by
  exact ⟨⟨rfl, rfl, by decide, by decide, rfl⟩,
    getCached_stale_fallback jsIntTruthy "k" cfg0 storeC3t envC2 entryC3t 0
      rfl rfl (by decide) (by decide) rfl⟩

/-! ## C4: successful fetch after a miss persists and later hits -/

/-- C4 counterexample: the claim as stated is false. On an empty store the
fetch resolves with the falsy value 0: `getCached` returns 0, but no entry
`{data, timestamp, version}` is persisted (the save is gated on
`if (freshData)`), and a subsequent immediate call invokes the fetch again. -/
theorem getCached_miss_persist_counterexample :
    (emptyStore : Store Int) (cacheKeyFor cfg0.pfxD "k") = none ∧
    (getCached jsIntTruthy "k" cfg0 emptyStore envC4).result = some 0 ∧
    (getCached jsIntTruthy "k" cfg0 emptyStore envC4).store
      (cacheKeyFor cfg0.pfxD "k") = none ∧
    (getCached jsIntTruthy "k" cfg0
      (getCached jsIntTruthy "k" cfg0 emptyStore envC4).store envC4).fetched = true := by
  exact ⟨rfl, by decide, by decide, by decide⟩

/-- C4 amended: if no valid entry is stored for `prefix:key` (miss), the
bounded fetch resolves with a truthy value `v`, and the fire-and-forget save
succeeds, then `getCached` returns `v` and persists
`{data := v, timestamp := nowSave, version := CACHE_VERSION}`; a subsequent
call on the persisted store whose initial read resolves while the entry is
still fresh (`now₂ - nowSave < ttl`) returns `v` without invoking the fetch. -/
theorem getCached_miss_then_hit {T : Type} (truthy : T → Bool) (key : String)
    (config : CacheConfig) (store : Store T) (env : Env T) (v : T)
    (hmiss : isValidEntry (store (cacheKeyFor config.pfxD key)) env.now config.ttlD
      = false)
    (hfetch : (withTimeout env.fetch config.timeoutD).2 = Except.ok v)
    (htruthy : truthy v = true) (hsave : env.saveOk = true) :
    (getCached truthy key config store env).result = some v ∧
    (getCached truthy key config store env).store =
      storeSet store (cacheKeyFor config.pfxD key) ⟨v, env.nowSave, CACHE_VERSION⟩ ∧
    (getCached truthy key config store env).fetched = true ∧
    ∀ (env₂ : Env T) (t : Nat), env₂.load1 = some (t, Except.ok ()) → t < 2000 →
      env₂.now - env.nowSave < config.ttlD →
      (getCached truthy key config
        (storeSet store (cacheKeyFor config.pfxD key)
          ⟨v, env.nowSave, CACHE_VERSION⟩) env₂).result = some v ∧
      (getCached truthy key config
        (storeSet store (cacheKeyFor config.pfxD key)
          ⟨v, env.nowSave, CACHE_VERSION⟩) env₂).fetched = false := by
  have hmiss' : isValidEntry
      (boundedRead env.load1 (store (cacheKeyFor config.pfxD key)) 2000).2
      env.now config.ttlD = false := by
    rcases boundedRead_snd_cases env.load1 (store (cacheKeyFor config.pfxD key)) 2000
      with h1 | h1 <;> rw [h1]
    · simp [isValidEntry]
    · exact hmiss
  refine ⟨?_, ?_, ?_, ?_⟩
  · simp [getCached, hmiss', hfetch, htruthy, hsave]
  · simp [getCached, hmiss', hfetch, htruthy, hsave]
  · simp [getCached, hmiss', hfetch, htruthy, hsave]
  · intro env₂ t hl ht hfresh
    have h := getCached_hit_aux truthy key config
      (storeSet store (cacheKeyFor config.pfxD key) ⟨v, env.nowSave, CACHE_VERSION⟩)
      env₂ ⟨v, env.nowSave, CACHE_VERSION⟩ t hl ht
      (storeSet_self store (cacheKeyFor config.pfxD key) ⟨v, env.nowSave, CACHE_VERSION⟩)
      rfl hfresh
    exact ⟨h.1, h.2.1⟩

/-- C4 amended witness: fetch resolves 7 on an empty store; 7 is returned and
persisted, and a second immediate call returns 7 without fetching. -/
theorem getCached_miss_then_hit_witness :
    (isValidEntry ((emptyStore : Store Int) (cacheKeyFor cfg0.pfxD "k"))
      envC4t.now cfg0.ttlD = false ∧
     (withTimeout envC4t.fetch cfg0.timeoutD).2 = Except.ok 7 ∧
     jsIntTruthy 7 = true ∧ envC4t.saveOk = true) ∧
    (getCached jsIntTruthy "k" cfg0 (emptyStore : Store Int) envC4t).result = some 7 ∧
    (getCached jsIntTruthy "k" cfg0
      (storeSet (emptyStore : Store Int) (cacheKeyFor cfg0.pfxD "k")
        ⟨7, envC4t.nowSave, CACHE_VERSION⟩) envC4t).result = some 7 ∧
    (getCached jsIntTruthy "k" cfg0
      (storeSet (emptyStore : Store Int) (cacheKeyFor cfg0.pfxD "k")
        ⟨7, envC4t.nowSave, CACHE_VERSION⟩) envC4t).fetched = false := by
  have h := getCached_miss_then_hit jsIntTruthy "k" cfg0 emptyStore envC4t 7
    (by decide) rfl rfl rfl
  have h2 := h.2.2.2 envC4t 5 rfl (by decide) (by decide)
  exact ⟨⟨by decide, rfl, rfl, rfl⟩, h.1, h2.1, h2.2⟩

/-! ## C5: invalidation forces refetch -/

theorem getCached_fetches_of_none {T : Type} (truthy : T → Bool) (key : String)
    (config : CacheConfig) (store : Store T) (env : Env T)
    (hstore : store (cacheKeyFor config.pfxD key) = none) :
    (getCached truthy key config store env).fetched = true := by
  have h1 := boundedRead_none_snd (T := T) env.load1 2000
  simp only [getCached, hstore, h1]
  split
  case isTrue h => simp [isValidEntry] at h
  case isFalse h =>
    split
    · rfl
    · split
      · split <;> rfl
      · rfl

/-- C5: a successful `invalidateCache(key)` resolves, and an immediately
following `getCached` for the same key and prefix always invokes `fetchFn`:
the deleted entry cannot satisfy the validity check, whatever the environment
does. -/
theorem invalidate_then_getCached_fetches {T : Type} (truthy : T → Bool)
    (key : String) (config : CacheConfig) (store : Store T) (env : Env T) :
    (invalidateCache key config.pfxD store true).1 = true ∧
    (getCached truthy key config
      (invalidateCache key config.pfxD store true).2 env).fetched = true := by
  refine ⟨rfl, ?_⟩
  apply getCached_fetches_of_none
  simp [invalidateCache, storeErase]

/-! ## C6: invalidateCaches — independence, but no failure swallowing -/

/-- C6 counterexample: the claim as stated is false. With remove failing on
`k1` and succeeding on `k2`, both deletions are attempted — `k2`'s entry is
gone — but `invalidateCaches` does not resolve: `Promise.all` rejects on the
first failed deletion (whose failure is not swallowed). -/
theorem invalidateCaches_counterexample :
    removeOkC6 "k1" = false ∧ removeOkC6 "k2" = true ∧
    (invalidateCaches ["k1", "k2"] "cache" storeC6 removeOkC6).1 = false ∧
    (invalidateCaches ["k1", "k2"] "cache" storeC6 removeOkC6).2 "cache:k2" = none ∧
    (invalidateCaches ["k1", "k2"] "cache" storeC6 removeOkC6).2 "cache:k1"
      = some entryC1 := by
  exact ⟨rfl, rfl, by decide, by decide, by decide⟩

theorem invalidateCaches_fold_none {T : Type} (keys : List String) (pfx : String)
    (store : Store T) (removeOk : String → Bool) (ck : String)
    (h : store ck = none) :
    keys.foldl (fun s k => (invalidateCache k pfx s (removeOk k)).2) store ck
      = none := by
  induction keys generalizing store with
  | nil => exact h
  | cons k ks ih =>
    rw [List.foldl_cons]
    apply ih
    by_cases hr : removeOk k
    · simp [invalidateCache, hr, storeErase, h]
    · simp [invalidateCache, hr, h]

theorem invalidateCaches_deletes {T : Type} (keys : List String) (pfx : String)
    (removeOk : String → Bool) (k : String) (hr : removeOk k = true) :
    ∀ store : Store T, k ∈ keys →
      keys.foldl (fun s k' => (invalidateCache k' pfx s (removeOk k')).2) store
        (cacheKeyFor pfx k) = none := by
  induction keys with
  | nil => intro store hk; cases hk
  | cons a as ih =>
    intro store hk
    rw [List.foldl_cons]
    rcases List.mem_cons.mp hk with rfl | hmem
    · apply invalidateCaches_fold_none
      simp [invalidateCache, hr, storeErase]
    · exact ih _ hmem

/-- C6 amended: deletions are attempted independently — every key whose
underlying remove resolves ends up deleted from the store even when another
key's remove rejects — but the failures are not swallowed: the combined call
resolves iff every single deletion resolves (`Promise.all` rejects on the
first failed deletion). -/
theorem invalidateCaches_partial_isolation {T : Type} (keys : List String)
    (pfx : String) (store : Store T) (removeOk : String → Bool) :
    (invalidateCaches keys pfx store removeOk).1 = keys.all removeOk ∧
    ∀ k, k ∈ keys → removeOk k = true →
      (invalidateCaches keys pfx store removeOk).2 (cacheKeyFor pfx k) = none := by
  constructor
  · have hfst : ∀ k', (invalidateCache (T := T) k' pfx store (removeOk k')).1
        = removeOk k' := by
      intro k'
      by_cases h : removeOk k' <;> simp [invalidateCache, h]
    simp [invalidateCaches, hfst]
  · intro k hk hr
    exact invalidateCaches_deletes keys pfx removeOk k hr store hk

/-- C6 amended witness: with remove failing on `k1`, the combined call
rejects (`all removeOk = false`) yet `k2`'s entry is deleted. -/
theorem invalidateCaches_partial_isolation_witness :
    ("k2" ∈ ["k1", "k2"] ∧ removeOkC6 "k2" = true) ∧
    (invalidateCaches ["k1", "k2"] "cache" storeC6 removeOkC6).1
      = (["k1", "k2"].all removeOkC6) ∧
    (invalidateCaches ["k1", "k2"] "cache" storeC6 removeOkC6).2
      (cacheKeyFor "cache" "k2") = none := by
  have h := invalidateCaches_partial_isolation (T := Int) ["k1", "k2"] "cache"
    storeC6 removeOkC6
  exact ⟨⟨by simp, rfl⟩, h.1, h.2 "k2" (by simp) rfl⟩

/-! ## C7: invalidateCache — idempotent, but rejection propagates -/

/-- C7 counterexample: the claim as stated is false. When the underlying
`remove` rejects, `invalidateCache` rejects too — the `await remove(cacheKey)`
has no try/catch, so the failure reaches the caller instead of being recovered
locally. -/
theorem invalidateCache_counterexample :
    (invalidateCache (T := Int) "k" "cache" emptyStore false).1 = false := by
  rfl

/-- C7 amended: when the underlying remove resolves, `invalidateCache`
resolves — absence of the entry is not an error — and it is idempotent
(invalidating twice equals invalidating once); but a rejection of the
underlying remove is not caught and propagates to the caller. -/
theorem invalidateCache_idempotent {T : Type} (key pfx : String) (store : Store T) :
    (invalidateCache key pfx store true).1 = true ∧
    invalidateCache key pfx (invalidateCache key pfx store true).2 true
      = invalidateCache key pfx store true ∧
    (invalidateCache key pfx store false).1 = false := by
  refine ⟨rfl, ?_, rfl⟩
  have herase : storeErase (storeErase store (cacheKeyFor pfx key)) (cacheKeyFor pfx key)
      = storeErase store (cacheKeyFor pfx key) := by
    funext k'
    by_cases h : k' = cacheKeyFor pfx key <;> simp [storeErase, h]
  simp [invalidateCache, herase]

/-! ## C8: preCache — unbounded fetch, truthy-gated persist, failures swallowed -/

/-- C8 counterexample: the claim as stated is false. `fetchFn` resolves with
the non-absent value 0 and the save would succeed, yet nothing is persisted:
`preCache` gates the save on `if (data)`, which is false for the falsy 0. -/
theorem preCache_counterexample :
    preCache jsIntTruthy "k" cfg0 (emptyStore : Store Int) (Except.ok 0) true 5
      = Except.ok emptyStore ∧
    (emptyStore : Store Int) (cacheKeyFor cfg0.pfxD "k") = none := by
  exact ⟨rfl, rfl⟩

/-- C8 amended: `preCache` always resolves (every failure of the fetch or the
save is swallowed by its try/catch); it persists
`{data, timestamp: now, version: CACHE_VERSION}` exactly when the fetched
value is truthy and the save succeeds; and on a fetch rejection it resolves
leaving the store unchanged. The fetch is awaited with no timeout bound. -/
theorem preCache_persists_truthy {T : Type} (truthy : T → Bool) (key : String)
    (config : CacheConfig) (store : Store T) (fetch : Except Unit T)
    (saveOk : Bool) (now : Int) :
    (∃ s, preCache truthy key config store fetch saveOk now = Except.ok s) ∧
    (∀ v, fetch = Except.ok v → truthy v = true → saveOk = true →
      preCache truthy key config store fetch saveOk now
        = Except.ok (storeSet store (cacheKeyFor config.pfxD key)
            ⟨v, now, CACHE_VERSION⟩)) ∧
    (fetch = Except.error () →
      preCache truthy key config store fetch saveOk now = Except.ok store) := by
  refine ⟨?_, ?_, ?_⟩
  · cases fetch with
    | error e => exact ⟨store, rfl⟩
    | ok v =>
      by_cases ht : truthy v
      · cases saveOk
        · exact ⟨store, by simp [preCache, preCacheTry, ht]⟩
        · exact ⟨storeSet store (cacheKeyFor config.pfxD key) ⟨v, now, CACHE_VERSION⟩,
            by simp [preCache, preCacheTry, ht]⟩
      · exact ⟨store, by simp [preCache, preCacheTry, ht]⟩
  · intro v hv ht hs
    subst hv
    subst hs
    simp [preCache, preCacheTry, ht]
  · intro hf
    subst hf
    rfl

/-- C8 amended witness: fetch resolves 7 (truthy), save succeeds — the entry
`{7, 5, CACHE_VERSION}` is persisted under `cache:k`. -/
theorem preCache_persists_truthy_witness :
    ((Except.ok 7 : Except Unit Int) = Except.ok 7 ∧ jsIntTruthy 7 = true ∧
      (true : Bool) = true) ∧
    preCache jsIntTruthy "k" cfg0 (emptyStore : Store Int) (Except.ok 7) true 5
      = Except.ok (storeSet emptyStore (cacheKeyFor cfg0.pfxD "k")
          ⟨7, 5, CACHE_VERSION⟩) := by
  exact ⟨⟨rfl, rfl, rfl⟩,
    (preCache_persists_truthy jsIntTruthy "k" cfg0 emptyStore (Except.ok 7) true 5).2.1
      7 rfl rfl rfl⟩

/-! ## C10: falsy fetch results are returned but never written -/

theorem isValidEntry_mono_false {T : Type} (cached : Option (CacheEntry T))
    (now now₂ ttl : Int) (h : isValidEntry cached now ttl = false)
    (hle : now ≤ now₂) : isValidEntry cached now₂ ttl = false := by
  cases cached with
  | none => rfl
  | some c =>
    simp only [isValidEntry, Bool.and_eq_false_iff] at h ⊢
    rcases h with h | h
    · exact Or.inl h
    · refine Or.inr ?_
      simp only [decide_eq_false_iff_not] at h ⊢
      omega

theorem getCached_fetches_of_invalid {T : Type} (truthy : T → Bool) (key : String)
    (config : CacheConfig) (store : Store T) (env : Env T)
    (hmiss : isValidEntry (store (cacheKeyFor config.pfxD key)) env.now config.ttlD
      = false) :
    (getCached truthy key config store env).fetched = true := by
  have hmiss' : isValidEntry
      (boundedRead env.load1 (store (cacheKeyFor config.pfxD key)) 2000).2
      env.now config.ttlD = false := by
    rcases boundedRead_snd_cases env.load1 (store (cacheKeyFor config.pfxD key)) 2000
      with h1 | h1 <;> rw [h1]
    · rfl
    · exact hmiss
  simp only [getCached, hmiss', Bool.false_eq_true, if_false]
  split
  · rfl
  · split
    · split <;> rfl
    · rfl

/-- C10: if no valid entry is stored for `prefix:key` (miss) and the bounded
fetch resolves with a falsy value `v`, then `getCached` returns `v` but writes
nothing — the store is left exactly as it was — and any later call (clock not
going backwards) for the same key and config invokes the fetch again. -/
theorem getCached_falsy_no_write {T : Type} (truthy : T → Bool) (key : String)
    (config : CacheConfig) (store : Store T) (env : Env T) (v : T)
    (hmiss : isValidEntry (store (cacheKeyFor config.pfxD key)) env.now config.ttlD
      = false)
    (hfetch : (withTimeout env.fetch config.timeoutD).2 = Except.ok v)
    (hfalsy : truthy v = false) :
    (getCached truthy key config store env).result = some v ∧
    (getCached truthy key config store env).store = store ∧
    (getCached truthy key config store env).fetched = true ∧
    ∀ env₂ : Env T, env.now ≤ env₂.now →
      (getCached truthy key config store env₂).fetched = true := by
  have hmiss' : isValidEntry
      (boundedRead env.load1 (store (cacheKeyFor config.pfxD key)) 2000).2
      env.now config.ttlD = false := by
    rcases boundedRead_snd_cases env.load1 (store (cacheKeyFor config.pfxD key)) 2000
      with h1 | h1 <;> rw [h1]
    · rfl
    · exact hmiss
  refine ⟨?_, ?_, ?_, ?_⟩
  · simp [getCached, hmiss', hfetch, hfalsy]
  · simp [getCached, hmiss', hfetch, hfalsy]
  · simp [getCached, hmiss', hfetch, hfalsy]
  · intro env₂ hle
    exact getCached_fetches_of_invalid truthy key config store env₂
      (isValidEntry_mono_false _ env.now env₂.now _ hmiss hle)

/-- C10 witness: on an empty store the fetch resolves with the falsy 0; 0 is
returned, the store is unchanged, and a repeat call fetches again. -/
theorem getCached_falsy_no_write_witness :
    (isValidEntry ((emptyStore : Store Int) (cacheKeyFor cfg0.pfxD "k"))
      envC4.now cfg0.ttlD = false ∧
     (withTimeout envC4.fetch cfg0.timeoutD).2 = Except.ok 0 ∧
     jsIntTruthy 0 = false) ∧
    (getCached jsIntTruthy "k" cfg0 (emptyStore : Store Int) envC4).result = some 0 ∧
    (getCached jsIntTruthy "k" cfg0 (emptyStore : Store Int) envC4).store
      = emptyStore ∧
    (getCached jsIntTruthy "k" cfg0 (emptyStore : Store Int) envC4).fetched = true := by
  have h := getCached_falsy_no_write jsIntTruthy "k" cfg0 emptyStore envC4 0
    (by decide) rfl rfl
  exact ⟨⟨by decide, rfl, rfl⟩, h.1, h.2.1, h.2.2.1⟩
